import Mathlib

/-!
Verification of the billing-notification report pipeline (`src/main.rs`).

The program fetches AWS cost data and an exchange rate, ranks per-service
costs, and renders a textual report.  This file shallowly embeds the pure
data-transformation core:

* Rust `f64` values are modelled by `F`: exact rationals plus the special
  values NaN and the two infinities; the special values propagate as in
  IEEE.  The additions of the total-cost fold are correctly rounded to
  binary64 (`roundB64`); the products inside `format_cost` are kept exact.
* `rust_decimal::Decimal` is modelled by `Dec`, a scaled integer mantissa.
* String parsing of `f64` (`str::parse::<f64>`) is modelled on the decimal
  grammar: optional sign, digits with optional fraction and exponent, and the
  keywords `inf` / `infinity` / `NaN` (case-insensitive).
* The AWS response types `Group` / `MetricValue` / `ResultByTime` keep the
  fields the program reads; hash maps are modelled as association lists.
* Network calls are modelled by passing their `Except` results to the
  orchestrator `lambda_handler`; `println!` logging is not modelled.
-/

namespace Billing

/-- Model of Rust `f64`: an exact rational, or one of the IEEE special
values NaN, +inf, -inf produced by parsing / arithmetic. -/
inductive F : Type
  | num (q : ℚ)
  | nan
  | inf
  | neginf
deriving DecidableEq, Repr

/-- Multiply a rational by a signed power of two. -/
def mulPow2 (x : ℚ) (e : ℤ) : ℚ :=
  if 0 ≤ e then x * (2 : ℚ) ^ e.toNat else x / (2 : ℚ) ^ (-e).toNat

/-- Fuel-driven base-2 logarithm on naturals (`log2Fuel n n` is the floor
log2 of a positive `n`; structural in the fuel so that it computes). -/
def log2Fuel : ℕ → ℕ → ℕ
  | 0, _ => 0
  | fuel + 1, n => if 2 ≤ n then log2Fuel fuel (n / 2) + 1 else 0

/-- `⌊log₂ a⌋` for a positive rational, from the bit lengths of numerator
and denominator, fixed up by direct comparison. -/
def floorLog2Q (a : ℚ) : ℤ :=
  let e0 : ℤ := (log2Fuel a.num.natAbs a.num.natAbs : ℤ)
    - (log2Fuel a.den a.den : ℤ)
  if mulPow2 1 (e0 + 1) ≤ a then e0 + 1
  else if mulPow2 1 e0 ≤ a then e0
  else e0 - 1

/-- Banker's rounding to an integer (ties to even): the rounding of both
the binary64 significand and `rust_decimal`'s default midpoint strategy. -/
def roundBankers (x : ℚ) : ℤ :=
  let f := ⌊x⌋
  let r := x - (f : ℚ)
  if r < 1 / 2 then f
  else if 1 / 2 < r then f + 1
  else if f % 2 = 0 then f else f + 1

/-- Round a rational to the nearest IEEE binary64 value (round to
nearest, ties to even on the 53-bit significand), for the normal range;
zero maps to zero.  Subnormal underflow and overflow to infinity are not
modelled (billing totals stay well inside the normal range). -/
def roundB64 (x : ℚ) : ℚ :=
  if x = 0 then 0
  else
    let a := |x|
    let e := floorLog2Q a - 52
    let r := mulPow2 (roundBankers (mulPow2 a (-e)) : ℚ) e
    if x < 0 then -r else r

/-- IEEE `f64` addition: special values propagate as in IEEE, and each
finite sum is correctly rounded to binary64 — this is the addition of the
`.sum::<f64>()` fold, whose result therefore depends on operand order. -/
def fadd64 : F → F → F
  | F.nan, _ => F.nan
  | _, F.nan => F.nan
  | F.inf, F.neginf => F.nan
  | F.neginf, F.inf => F.nan
  | F.inf, _ => F.inf
  | _, F.inf => F.inf
  | F.neginf, _ => F.neginf
  | _, F.neginf => F.neginf
  | F.num a, F.num b => F.num (roundB64 (a + b))

/-- IEEE multiplication on the model (finite products are exact;
`inf * 0 = NaN`). -/
def fmul : F → F → F
  | F.nan, _ => F.nan
  | _, F.nan => F.nan
  | F.inf, F.inf => F.inf
  | F.inf, F.neginf => F.neginf
  | F.neginf, F.inf => F.neginf
  | F.neginf, F.neginf => F.inf
  | F.inf, F.num q => if 0 < q then F.inf else if q < 0 then F.neginf else F.nan
  | F.num q, F.inf => if 0 < q then F.inf else if q < 0 then F.neginf else F.nan
  | F.neginf, F.num q => if 0 < q then F.neginf else if q < 0 then F.inf else F.nan
  | F.num q, F.neginf => if 0 < q then F.neginf else if q < 0 then F.inf else F.nan
  | F.num a, F.num b => F.num (a * b)

/-- `f64::partial_cmp`: `none` exactly when an operand is NaN.  This is the
comparison the source comparator unwraps. -/
def fcmp : F → F → Option Ordering
  | F.nan, _ => none
  | _, F.nan => none
  | F.neginf, F.neginf => some Ordering.eq
  | F.neginf, _ => some Ordering.lt
  | _, F.neginf => some Ordering.gt
  | F.inf, F.inf => some Ordering.eq
  | F.num _, F.inf => some Ordering.lt
  | F.inf, F.num _ => some Ordering.gt
  | F.num a, F.num b =>
      some (if a < b then Ordering.lt else if b < a then Ordering.gt else Ordering.eq)

/-- Total linear preorder extending `fcmp`-le by placing NaN below every
value.  On NaN-free values it agrees with the source comparison
(`fcmp x y ≠ some .gt`); the sort theorems assume NaN-free costs, where the
source `partial_cmp(..).unwrap()` cannot panic. -/
def fle : F → F → Bool
  | F.nan, _ => true
  | _, F.nan => false
  | F.neginf, _ => true
  | _, F.neginf => false
  | F.num a, F.num b => decide (a ≤ b)
  | F.num _, F.inf => true
  | F.inf, F.num _ => false
  | F.inf, F.inf => true

/-- Rust `f64::round`: round half away from zero, as an integer. -/
def roundHalfAway (q : ℚ) : ℤ :=
  if 0 ≤ q then ⌊q + 1 / 2⌋ else -⌊-q + 1 / 2⌋

/-- `f64::round` on the model: special values round to themselves. -/
def fround : F → F
  | F.num q => F.num ((roundHalfAway q : ℤ) : ℚ)
  | F.nan => F.nan
  | F.inf => F.inf
  | F.neginf => F.neginf

/-- Rust `Display` for the `f64` values this program prints: integral finite
values print as plain integers, NaN as `NaN`, infinities as `inf` / `-inf`.
(The program only displays results of `f64::round`, which are integral.) -/
def displayF : F → String
  | F.num q => if q.den = 1 then toString q.num else toString q
  | F.nan => "NaN"
  | F.inf => "inf"
  | F.neginf => "-inf"

/-- Numeric value of a digit list, most significant first. -/
def digitsVal (ds : List Char) : ℕ :=
  ds.foldl (fun a c => a * 10 + (c.toNat - 48)) 0

/-- Parse an optional exponent suffix (`e`/`E`, optional sign, digits) that
must consume the whole remainder; `some 0` on empty input. -/
def parseExpSuffix : List Char → Option ℤ
  | [] => some 0
  | c :: t =>
      if c = 'e' ∨ c = 'E' then
        let (neg, t2) := match t with
          | '-' :: r => (true, r)
          | '+' :: r => (false, r)
          | r => (false, r)
        let ds := t2.takeWhile Char.isDigit
        if ds.isEmpty ∨ ¬ (t2.drop ds.length).isEmpty then none
        else some (if neg then -(digitsVal ds : ℤ) else (digitsVal ds : ℤ))
      else none

/-- Scale a rational by a signed power of ten. -/
def scalePow10 (q : ℚ) (e : ℤ) : ℚ :=
  if 0 ≤ e then q * (10 : ℚ) ^ e.toNat else q / (10 : ℚ) ^ (-e).toNat

/-- Model of Rust `str::parse::<f64>()`: optional sign, then the keywords
`inf` / `infinity` / `nan` (case-insensitive) or a decimal numeral
`digits [. digits] [exponent]` with at least one digit.  Finite values are
kept exact (the binary rounding of a real `f64` parse is not modelled). -/
def parse_f64 (s : String) : Option F :=
  let cs := s.data
  let (neg, cs) := match cs with
    | '-' :: t => (true, t)
    | '+' :: t => (false, t)
    | t => (false, t)
  let low := cs.map Char.toLower
  if low = "inf".data ∨ low = "infinity".data then
    some (if neg then F.neginf else F.inf)
  else if low = "nan".data then
    some F.nan
  else
    let d1 := cs.takeWhile Char.isDigit
    let r1 := cs.drop d1.length
    let (d2, r2) := match r1 with
      | '.' :: t => (t.takeWhile Char.isDigit, t.drop (t.takeWhile Char.isDigit).length)
      | r => ([], r)
    if d1.isEmpty ∧ d2.isEmpty then none
    else
      (parseExpSuffix r2).map fun e =>
        let mag := scalePow10 ((digitsVal (d1 ++ d2) : ℚ) / (10 : ℚ) ^ d2.length) e
        F.num (if neg then -mag else mag)

/-- Model of `rust_decimal::Decimal`: mantissa `m` scaled by `10 ^ s`,
denoting `m / 10 ^ s`. -/
structure Dec : Type where
  m : ℤ
  s : ℕ
deriving DecidableEq, Repr

/-- Rational value of a `Dec`. -/
def Dec.toRat (d : Dec) : ℚ := (d.m : ℚ) / (10 : ℚ) ^ d.s

/-- `Decimal::ZERO`. -/
def Dec.zero : Dec := ⟨0, 0⟩

/-- Smallest scale `s ≤ 28` for which `q * 10 ^ s` is an integer, if any. -/
def findScale (q : ℚ) : Option ℕ :=
  (List.range 29).find? fun s => decide ((q * (10 : ℚ) ^ s).den = 1)

/-- Model of `Decimal::from_f64`: fails on NaN / infinity and on mantissa
overflow (|mantissa| ≥ 2^96); a finite value is converted at its minimal
decimal scale. -/
def Dec.from_f64 : F → Option Dec
  | F.num q =>
      (findScale q).bind fun s =>
        let m := (q * (10 : ℚ) ^ s).num
        if m.natAbs < 2 ^ 96 then some ⟨m, s⟩ else none
  | _ => none

/-- `Decimal::round_dp(2)` with the default banker's midpoint strategy:
scales above 2 are rounded down to scale 2, lower scales are unchanged. -/
def Dec.round_dp2 (d : Dec) : Dec :=
  if d.s ≤ 2 then d
  else ⟨roundBankers ((d.m : ℚ) / (10 : ℚ) ^ (d.s - 2)), 2⟩

/-- `Display` for `Dec`: mantissa digits with a decimal point inserted
according to the scale (`⟨255, 1⟩` prints `25.5`, `⟨10, 0⟩` prints `10`). -/
def Dec.render (d : Dec) : String :=
  let sign := if d.m < 0 then "-" else ""
  let digits := toString d.m.natAbs
  if d.s = 0 then sign ++ digits
  else
    let digits :=
      if digits.length ≤ d.s then
        String.mk (List.replicate (d.s + 1 - digits.length) '0') ++ digits
      else digits
    sign ++ digits.take (digits.length - d.s) ++ "." ++
      digits.drop (digits.length - d.s)

/-- `format_cost` (src/main.rs:62-67): JPY = `(cost * rate).round()` printed
as an `f64`; USD = `Decimal::from_f64(cost).map(round_dp(2)).unwrap_or(ZERO)`. -/
def format_cost (cost_usd : F) (exchange_rate : F) : String :=
  let rounded_jpy := fround (fmul cost_usd exchange_rate)
  let rounded_usd := ((Dec.from_f64 cost_usd).map Dec.round_dp2).getD Dec.zero
  displayF rounded_jpy ++ "円($" ++ Dec.render rounded_usd ++ ")"

/-- `aws_sdk_costexplorer::types::MetricValue` (the fields the program
reads). -/
structure MetricValue : Type where
  amount : Option String
  unit : Option String
deriving DecidableEq, Repr

/-- `aws_sdk_costexplorer::types::Group`; the `metrics` hash map is modelled
as an association list. -/
structure Group : Type where
  keys : Option (List String)
  metrics : Option (List (String × MetricValue))
deriving DecidableEq, Repr

/-- A time bucket of `GetCostAndUsage` (`ResultByTime`); only the `groups`
field is read on the per-service path. -/
structure ResultByTime : Type where
  groups : Option (List Group)
deriving DecidableEq, Repr

/-- `get_unblended_cost` (src/main.rs:124-126): the parsed `UnblendedCost`
amount of a group, `0.0` when the metric, the amount, or the parse is
missing. -/
def get_unblended_cost (group : Group) : F :=
  ((((group.metrics.bind fun metrics => metrics.lookup "UnblendedCost").bind
      fun cost => cost.amount).bind
      fun amount => parse_f64 amount)).getD (F.num 0)

/-- The sort order used on groups (src/main.rs:115-119): descending by
unblended cost.  The source comparator is
`b_cost.partial_cmp(&a_cost).unwrap()`, which panics when a cost is NaN;
`fle` totalizes that order (NaN lowest), and the theorems about the sort
assume NaN-free costs. -/
def group_le (a b : Group) : Bool :=
  fle (get_unblended_cost b) (get_unblended_cost a)

/-- Insert into a sorted list: before the first element not below `a`.
This is the standard stable insertion. -/
def insertLe (le : α → α → Bool) (a : α) : List α → List α
  | [] => [a]
  | b :: t => if le a b then a :: b :: t else b :: insertLe le a t

/-- Stable insertion sort, the model of the stable `slice::sort_by`. -/
def isortLe (le : α → α → Bool) : List α → List α
  | [] => []
  | a :: t => insertLe le a (isortLe le t)

/-- The sorted (descending by cost) group list produced inside
`fetch_cost_and_usage` (src/main.rs:115-119). -/
def sortGroupsDesc (groups : List Group) : List Group :=
  isortLe group_le groups

/-- The extraction-and-sort tail of `fetch_cost_and_usage`
(src/main.rs:114-121): `results_by_time.and_then(pop).and_then(groups)`
(`Vec::pop` takes the LAST bucket), error when absent, then the descending
sort. -/
def fetch_extract (results_by_time : Option (List ResultByTime)) :
    Except String (List Group) :=
  match (results_by_time.bind fun rbt => rbt.getLast?).bind
      fun first => first.groups with
  | some groups => Except.ok (sortGroupsDesc groups)
  | none => Except.error "No groups found in the first result"

/-- `fetch_cost_and_usage` as a function of the network response: a network
error propagates, otherwise the response is extracted and sorted. -/
def fetch_cost_and_usage
    (response : Except String (Option (List ResultByTime))) :
    Except String (List Group) :=
  response.bind fetch_extract

/-- The Rust `i8 as usize` cast used on `display_count`
(src/main.rs:72): sign-extension reinterpreted as an unsigned 64-bit
value, i.e. reduction modulo `2 ^ 64`. -/
def castUsize (n : ℤ) : ℕ := (n % (2 ^ 64 : ℤ)).toNat

/-- The spec's `rankTop`: the sort performed in `fetch_cost_and_usage`
followed by the truncation `take(display_count as usize)` performed in
`format_service_costs`. -/
def rankTop (groups : List Group) (display_count : ℤ) : List Group :=
  (sortGroupsDesc groups).take (castUsize display_count)

/-- `compute_formatted_cost` (src/main.rs:86-90). -/
def compute_formatted_cost (metric : MetricValue) (exchange_rate : F) :
    Option String :=
  (metric.amount.bind fun amount => parse_f64 amount).map
    fun amount => format_cost amount exchange_rate

/-- The width-50 left-aligned padding of the line format in
`format_service_costs`: pad on the right with spaces to a MINIMUM width of
50 characters (Rust format widths are minimums; longer keys are not
truncated). -/
def padRight50 (s : String) : String :=
  s ++ String.mk (List.replicate (50 - s.length) ' ')

/-- The line emitted for one group by the loop body of
`format_service_costs` (src/main.rs:72-82), `none` when any of the nested
`if let`s fails (first key, metrics, `UnblendedCost`, parsable amount):
such a group is silently skipped. -/
def entry_line (exchange_rate : F) (cost : Group) : Option String :=
  (cost.keys.bind fun keys => keys.head?).bind fun key =>
    (cost.metrics.bind fun metrics => metrics.lookup "UnblendedCost").bind
      fun metric =>
        (compute_formatted_cost metric exchange_rate).map fun formatted =>
          padRight50 key ++ ":  " ++ formatted ++ "\n"

/-- `format_service_costs` (src/main.rs:69-84).  The source returns
`Result`, but `write!` into a `String` is infallible, so the model is a
plain `String`. -/
def format_service_costs (cost_and_usages : List Group) (exchange_rate : F)
    (display_count : ℤ) : String :=
  let body := (cost_and_usages.take (castUsize display_count)).foldl
    (fun acc cost => acc ++ ((entry_line exchange_rate cost).getD "")) ""
  "```\n" ++ body ++ "\n```"

/-- The total-cost fold of `lambda_handler` (src/main.rs:28-33): every
metric value of every group, parsed, summed left to right as `f64` with
correctly rounded additions. -/
def computeTotal (cost_and_usages : List Group) : F :=
  ((((cost_and_usages.filterMap Group.metrics).flatMap
      fun metrics => metrics.map Prod.snd).filterMap
      MetricValue.amount).filterMap parse_f64).foldl fadd64 (F.num 0)

/-- The report template of `lambda_handler` (src/main.rs:50-56). -/
def buildContent (total monthly forecast ranking : String) : String :=
  "前々日料金:" ++ total ++ "\n--------------\n現時点料金:" ++ monthly ++
    "\n今月の予測:" ++ forecast ++ "\n■前々日の料金ランキング\n" ++ ranking ++ "\n"

/-- `lambda_handler` (src/main.rs:21-59) as a function of the four network
results, in source order: exchange rate, cost-and-usage, forecast, then the
month-to-date cost, then formatting.  Any step's error short-circuits. -/
def lambda_handler (rateR : Except String F)
    (costResp : Except String (Option (List ResultByTime)))
    (forecastR : Except String F) (monthlyR : Except String F) :
    Except String String :=
  rateR.bind fun exchange_rate =>
    (fetch_cost_and_usage costResp).bind fun cost_and_usages =>
      forecastR.bind fun forecast =>
        let total_cost := computeTotal cost_and_usages
        monthlyR.bind fun monthly_cost =>
          Except.ok (buildContent
            (format_cost total_cost exchange_rate)
            (format_cost monthly_cost exchange_rate)
            (format_cost forecast exchange_rate)
            (format_service_costs cost_and_usages exchange_rate 5))

/-! ### Helper lemmas: the stable insertion sort -/

theorem insertLe_perm (le : α → α → Bool) (a : α) :
    ∀ l : List α, List.Perm (insertLe le a l) (a :: l) := by
  intro l
  induction l with
  | nil => exact List.Perm.refl _
  | cons b t ih =>
      by_cases h : le a b = true
      · simp [insertLe, h]
      · simp only [insertLe, h]
        exact (List.Perm.cons b ih).trans (List.Perm.swap a b t)

theorem isortLe_perm (le : α → α → Bool) :
    ∀ l : List α, List.Perm (isortLe le l) l := by
  intro l
  induction l with
  | nil => exact List.Perm.refl _
  | cons a t ih =>
      exact (insertLe_perm le a (isortLe le t)).trans (ih.cons a)

theorem isortLe_length (le : α → α → Bool) (l : List α) :
    (isortLe le l).length = l.length :=
  (isortLe_perm le l).length_eq

theorem pairwise_insertLe (le : α → α → Bool)
    (htot : ∀ x y, le x y = true ∨ le y x = true)
    (htrans : ∀ x y z, le x y = true → le y z = true → le x z = true)
    (a : α) :
    ∀ l : List α, l.Pairwise (fun x y => le x y = true) →
      (insertLe le a l).Pairwise (fun x y => le x y = true) := by
  intro l
  induction l with
  | nil => intro _; simp [insertLe]
  | cons b t ih =>
      intro h
      rw [List.pairwise_cons] at h
      obtain ⟨hb, ht⟩ := h
      by_cases hab : le a b = true
      · simp only [insertLe, hab, if_true]
        refine List.Pairwise.cons ?_ (List.Pairwise.cons hb ht)
        intro x hx
        rcases List.mem_cons.mp hx with rfl | hx
        · exact hab
        · exact htrans a b x hab (hb x hx)
      · simp only [insertLe, hab, if_false]
        refine List.Pairwise.cons ?_ (ih ht)
        intro x hx
        rcases List.mem_cons.mp ((insertLe_perm le a t).mem_iff.mp hx) with rfl | hx
        · rcases htot x b with h | h
          · exact absurd h hab
          · exact h
        · exact hb x hx

theorem pairwise_isortLe (le : α → α → Bool)
    (htot : ∀ x y, le x y = true ∨ le y x = true)
    (htrans : ∀ x y z, le x y = true → le y z = true → le x z = true) :
    ∀ l : List α, (isortLe le l).Pairwise (fun x y => le x y = true) := by
  intro l
  induction l with
  | nil => exact List.Pairwise.nil
  | cons a t ih => exact pairwise_insertLe le htot htrans a _ ih

theorem filter_insertLe (le : α → α → Bool) (p : α → Bool) (a : α)
    (hpa : ∀ b, p a = true → p b = true → le a b = true) :
    ∀ l : List α,
      (insertLe le a l).filter p = if p a then a :: l.filter p else l.filter p := by
  intro l
  induction l with
  | nil =>
      by_cases hpav : p a = true <;> simp [insertLe, List.filter_cons, hpav]
  | cons b t ih =>
      by_cases hab : le a b = true
      · simp only [insertLe, hab, if_true]
        by_cases hpav : p a = true <;> simp [List.filter_cons, hpav]
      · simp only [insertLe, hab, if_false]
        by_cases hpb : p b = true
        · by_cases hpav : p a = true
          · exact absurd (hpa b hpav hpb) hab
          · simp [List.filter_cons, hpb, hpav, ih]
        · simp [List.filter_cons, hpb, ih]

theorem filter_isortLe (le : α → α → Bool) (p : α → Bool)
    (hp : ∀ a b, p a = true → p b = true → le a b = true) :
    ∀ l : List α, (isortLe le l).filter p = l.filter p := by
  intro l
  induction l with
  | nil => rfl
  | cons a t ih =>
      show (insertLe le a (isortLe le t)).filter p = _
      rw [filter_insertLe le p a (hp a) (isortLe le t), ih]
      by_cases hpav : p a = true <;> simp [List.filter_cons, hpav]

/-! ### Helper lemmas: the order on modelled floats -/

theorem fle_refl (x : F) : fle x x = true := by
  cases x <;> simp [fle]

theorem fle_total (x y : F) : fle x y = true ∨ fle y x = true := by
  cases x <;> cases y <;> simp [fle] <;> exact le_total _ _

theorem fle_trans (x y z : F) (h1 : fle x y = true) (h2 : fle y z = true) :
    fle x z = true := by
  cases x <;> cases y <;> cases z <;> simp_all [fle]
  exact le_trans h1 h2

theorem group_le_total (a b : Group) : group_le a b = true ∨ group_le b a = true :=
  fle_total (get_unblended_cost b) (get_unblended_cost a)

theorem group_le_trans (a b c : Group) (h1 : group_le a b = true)
    (h2 : group_le b c = true) : group_le a c = true :=
  fle_trans _ _ _ h2 h1

/-- On NaN-free operands `fcmp` (the comparison whose result the source
comparator unwraps) is defined. -/
theorem fcmp_isSome_of_not_nan (x y : F) (hx : x ≠ F.nan) (hy : y ≠ F.nan) :
    (fcmp x y).isSome = true := by
  cases x <;> cases y <;> simp_all [fcmp]

/-- Decidable equality for `Except`, used to evaluate the extraction
results on concrete fixtures. -/
instance {ε α : Type} [DecidableEq ε] [DecidableEq α] :
    DecidableEq (Except ε α) := fun x y =>
  match x, y with
  | Except.ok a, Except.ok b =>
      if h : a = b then isTrue (by rw [h]) else isFalse (by simp [h])
  | Except.error a, Except.error b =>
      if h : a = b then isTrue (by rw [h]) else isFalse (by simp [h])
  | Except.ok _, Except.error _ => isFalse (by simp)
  | Except.error _, Except.ok _ => isFalse (by simp)

/-! ### Concrete fixtures -/

/-- Service entry `{"EC2", "10.00"}` of the spec scenario. -/
def ec2g : Group :=
  ⟨some ["EC2"], some [("UnblendedCost", ⟨some "10.00", some "USD"⟩)]⟩

/-- Service entry `{"S3", "25.50"}` of the spec scenario. -/
def s3g : Group :=
  ⟨some ["S3"], some [("UnblendedCost", ⟨some "25.50", some "USD"⟩)]⟩

/-- Service entry `{"Lambda", "0.75"}` of the spec scenario. -/
def lamg : Group :=
  ⟨some ["Lambda"], some [("UnblendedCost", ⟨some "0.75", some "USD"⟩)]⟩

/-- A group whose `UnblendedCost` amount string parses to NaN. -/
def nang : Group :=
  ⟨some ["NaNSvc"], some [("UnblendedCost", ⟨some "NaN", some "USD"⟩)]⟩

/-- A service entry with the exactly representable amount `10^16`. -/
def bigg : Group :=
  ⟨some ["Big"], some [("UnblendedCost", ⟨some "10000000000000000", some "USD"⟩)]⟩

/-- A service entry with amount `1`. -/
def one1g : Group :=
  ⟨some ["One1"], some [("UnblendedCost", ⟨some "1", some "USD"⟩)]⟩

/-- A second service entry with amount `1`. -/
def one2g : Group :=
  ⟨some ["One2"], some [("UnblendedCost", ⟨some "1", some "USD"⟩)]⟩

/-- A 51-character service label. -/
def longLabel : String := String.mk (List.replicate 51 'a')

/-- A group whose label is longer than the 50-character column. -/
def longg : Group :=
  ⟨some [longLabel], some [("UnblendedCost", ⟨some "1.00", some "USD"⟩)]⟩

/-! ### Claims -/

/-- C9: for service entries EC2/10.00, S3/25.50, Lambda/0.75 with rate 150
and display count 2, the responses first (and only) time-bucket ranks as
S3, EC2, Lambda, and the rendered ranking block shows exactly the S3 line
`3825円($25.5)` followed by the EC2 line `1500円($10)`; Lambda is excluded. -/
theorem c9_scenario :
    fetch_extract (some [⟨some [ec2g, s3g, lamg]⟩]) = Except.ok [s3g, ec2g, lamg]
    ∧ format_service_costs [s3g, ec2g, lamg] (F.num 150) 2
        = "```\n" ++ padRight50 "S3" ++ ":  3825円($25.5)\n"
            ++ padRight50 "EC2" ++ ":  1500円($10)\n" ++ "\n```" := by
  exact ⟨by decide!, by decide!⟩

/-- C3 counterexample: for the negative display count `-1` the ranked
result is the WHOLE list, not the empty list, because the Rust `i8 as
usize` cast wraps to `2 ^ 64 - 1`; the rendered block is likewise
non-empty. -/
theorem c3_counterexample :
    rankTop [s3g] (-1) = [s3g]
    ∧ rankTop [s3g] (-1) ≠ []
    ∧ format_service_costs [s3g] (F.num 150) (-1) ≠ "```\n\n```" := by
  refine ⟨rfl, by decide, by decide!⟩

/-- C3 amended: with display count `n = 0` the ranked result is empty, but
for a negative `i8` count the `as usize` cast wraps, so every entry is
kept (the full sorted list is returned whenever it is shorter than
`2 ^ 64 - 128`). -/
theorem c3_amended (groups : List Group) (n : ℤ) (hlo : -128 ≤ n) (hhi : n ≤ 0)
    (hlen : groups.length < 2 ^ 64 - 128) :
    rankTop groups n = if n = 0 then [] else sortGroupsDesc groups := by
  by_cases h0 : n = 0
  · subst h0
    simp [rankTop, castUsize]
  · have hneg : n < 0 := lt_of_le_of_ne hhi h0
    have hlarge : (2 : ℕ) ^ 64 - 128 ≤ castUsize n := by
      simp only [castUsize]
      omega
    have hlen2 : (sortGroupsDesc groups).length ≤ castUsize n := by
      rw [sortGroupsDesc, isortLe_length]
      omega
    simp [rankTop, h0, List.take_of_length_le hlen2]

/-- C3 amended witness at `n = -5` on a two-element list. -/
theorem c3_amended_witness :
    rankTop [ec2g, s3g] (-5)
      = if (-5 : ℤ) = 0 then [] else sortGroupsDesc [ec2g, s3g] :=
  c3_amended [ec2g, s3g] (-5) (by decide) (by decide) (by decide)

/-- C6 counterexample: on a NaN amount `format_cost` renders `NaN` in the
JPY (target-currency) component — only the USD component falls back to
zero, refuting the claim that BOTH components fall back to zero. -/
theorem c6_counterexample :
    format_cost F.nan (F.num 150) = "NaN円($0)" ∧ "NaN" ≠ "0" := by
  exact ⟨rfl, by decide⟩

/-- C6 amended: when the amount is not a finite value (NaN or an
infinity), the USD component of `format_cost` falls back to the zero
decimal, while the JPY component renders the special value itself. -/
theorem c6_amended (r : F) :
    format_cost F.nan r = "NaN円($0)"
    ∧ format_cost F.inf (F.num 150) = "inf円($0)"
    ∧ format_cost F.neginf (F.num 150) = "-inf円($0)" := by
  refine ⟨?_, by decide, by decide⟩
  cases r <;> rfl

/-- C10 counterexample: an amount string `"NaN"` parses successfully to a
NaN cost, on which the comparison the sort comparator unwraps returns
`none` — the `unwrap` in the comparator IS reachable. -/
theorem c10_counterexample :
    get_unblended_cost nang = F.nan
    ∧ fcmp (get_unblended_cost s3g) (get_unblended_cost nang) = none := by
  exact ⟨by decide!, by decide!⟩

/-- C10 amended: the sort comparator is total (the unwrapped
`partial_cmp` returns an ordering) whenever neither entry's parsed cost is
NaN. -/
theorem c10_amended (a b : Group)
    (ha : get_unblended_cost a ≠ F.nan)
    (hb : get_unblended_cost b ≠ F.nan) :
    ∃ o, fcmp (get_unblended_cost b) (get_unblended_cost a) = some o := by
  have h := fcmp_isSome_of_not_nan _ _ hb ha
  exact ⟨(fcmp (get_unblended_cost b) (get_unblended_cost a)).get h,
    (Option.some_get h).symm⟩

/-- C10 amended witness on two parsable entries. -/
theorem c10_amended_witness :
    ∃ o, fcmp (get_unblended_cost s3g) (get_unblended_cost ec2g) = some o :=
  c10_amended ec2g s3g (by decide!) (by decide!)

/-- C4 counterexample: with two time buckets the extraction returns the
groups of the LAST bucket (`Vec::pop`), not the first, refuting "takes the
first time-bucket". -/
theorem c4_counterexample :
    fetch_extract (some [⟨some [ec2g]⟩, ⟨some [s3g]⟩]) = Except.ok [s3g]
    ∧ sortGroupsDesc [ec2g] = [ec2g]
    ∧ [s3g] ≠ [ec2g] := by
  exact ⟨rfl, rfl, by decide⟩

/-- C4 amended: `fetch_cost_and_usage` takes the LAST time-bucket of the
response (the only one for its one-day window); it fails with the
`"No groups found in the first result"` error whenever the response has no
bucket list, zero buckets, or the taken bucket has no groups; otherwise it
returns one entry per group of that bucket (a permutation of them, of equal
length). -/
theorem c4_amended (results_by_time : Option (List ResultByTime)) :
    (fetch_extract none = Except.error "No groups found in the first result")
    ∧ (fetch_extract (some [])
        = Except.error "No groups found in the first result")
    ∧ (((results_by_time.bind fun rbt => rbt.getLast?).bind
          fun last => last.groups) = none →
        fetch_extract results_by_time
          = Except.error "No groups found in the first result")
    ∧ ∀ gs, (((results_by_time.bind fun rbt => rbt.getLast?).bind
          fun last => last.groups) = some gs →
        ∃ res, fetch_extract results_by_time = Except.ok res
          ∧ res.length = gs.length ∧ List.Perm res gs) := by
  refine ⟨rfl, rfl, ?_, ?_⟩
  · intro h
    simp [fetch_extract, h]
  · intro gs h
    refine ⟨sortGroupsDesc gs, ?_, ?_, ?_⟩
    · simp [fetch_extract, h]
    · exact isortLe_length _ _
    · exact isortLe_perm _ _

/-- C4 amended witness: a single-bucket response with two groups is
extracted into a same-length permutation of its groups. -/
theorem c4_amended_witness :
    ∃ res, fetch_extract (some [⟨some [ec2g, s3g]⟩]) = Except.ok res
      ∧ res.length = [ec2g, s3g].length ∧ List.Perm res [ec2g, s3g] :=
  (c4_amended (some [⟨some [ec2g, s3g]⟩])).2.2.2 [ec2g, s3g] rfl

/-- C5 counterexample: the float total is NOT invariant under reordering
of the entries.  With amounts 10^16, 1, 1 (all exactly representable in
binary64), summing the big value first absorbs both 1s into rounding
(total 10^16), while summing the 1s first yields 10^16 + 2. -/
theorem c5_counterexample :
    List.Perm [bigg, one1g, one2g] [one1g, one2g, bigg]
    ∧ computeTotal [bigg, one1g, one2g] ≠ computeTotal [one1g, one2g, bigg] := by
  exact ⟨by decide, by decide!⟩

/-- C5 amended: the total of an empty entry list is `0.0`, but the float
sum is order-dependent: IEEE rounding of each partial sum makes reordering
the entries change the total, as the 10^16, 1, 1 instance shows. -/
theorem c5_amended :
    computeTotal [] = F.num 0
    ∧ computeTotal [bigg, one1g, one2g] = F.num (10 ^ 16)
    ∧ computeTotal [one1g, one2g, bigg] = F.num (10 ^ 16 + 2) := by
  refine ⟨rfl, by decide!, by decide!⟩

/-- C8: if any of the four fetch/parse steps (exchange rate, service
costs, forecast, month-to-date) fails, `lambda_handler` returns exactly
that step's error and produces no report content. -/
theorem c8_abort (rateR : Except String F)
    (costResp : Except String (Option (List ResultByTime)))
    (forecastR monthlyR : Except String F) (e : String)
    (h : rateR = Except.error e
      ∨ ((∃ v, rateR = Except.ok v)
          ∧ fetch_cost_and_usage costResp = Except.error e)
      ∨ ((∃ v, rateR = Except.ok v)
          ∧ (∃ gs, fetch_cost_and_usage costResp = Except.ok gs)
          ∧ forecastR = Except.error e)
      ∨ ((∃ v, rateR = Except.ok v)
          ∧ (∃ gs, fetch_cost_and_usage costResp = Except.ok gs)
          ∧ (∃ v, forecastR = Except.ok v)
          ∧ monthlyR = Except.error e)) :
    lambda_handler rateR costResp forecastR monthlyR = Except.error e := by
  rcases h with h | ⟨⟨v, hv⟩, h⟩ | ⟨⟨v, hv⟩, ⟨gs, hgs⟩, h⟩
    | ⟨⟨v, hv⟩, ⟨gs, hgs⟩, ⟨w, hw⟩, h⟩ <;>
    simp [lambda_handler, Except.bind, *]

/-- C8 witness: a failing exchange-rate fetch aborts the run with that
error even though every other step succeeded. -/
theorem c8_abort_witness :
    lambda_handler (Except.error "rate down")
      (Except.ok (some [⟨some [ec2g]⟩])) (Except.ok (F.num 1))
      (Except.ok (F.num 2)) = Except.error "rate down" :=
  c8_abort (Except.error "rate down") (Except.ok (some [⟨some [ec2g]⟩]))
    (Except.ok (F.num 1)) (Except.ok (F.num 2)) "rate down" (Or.inl rfl)

/-- C1: for a valid (non-negative `i8`) display count, the
ranked-and-truncated list has length `min n (length entries)`, is sorted
non-increasing by parsed `UnblendedCost` amount, and the sort is stable:
for every cost value, the entries carrying it appear in their original
response order.  NaN-free costs are assumed (with a NaN cost the source
comparator would panic, settled separately). -/
theorem c1_rank_top (groups : List Group) (n : ℤ) (h0 : 0 ≤ n)
    (h127 : n ≤ 127)
    (hnan : ∀ g ∈ groups, get_unblended_cost g ≠ F.nan) :
    (rankTop groups n).length = min n.toNat groups.length
    ∧ (rankTop groups n).Pairwise
        (fun a b => fle (get_unblended_cost b) (get_unblended_cost a) = true)
    ∧ ∀ c : F, (sortGroupsDesc groups).filter
          (fun g => decide (get_unblended_cost g = c))
        = groups.filter (fun g => decide (get_unblended_cost g = c)) := by
  have hc : castUsize n = n.toNat := by
    simp only [castUsize]
    omega
  refine ⟨?_, ?_, ?_⟩
  · rw [rankTop, hc, List.length_take, sortGroupsDesc, isortLe_length]
  · have hp := pairwise_isortLe group_le group_le_total group_le_trans groups
    exact List.Pairwise.sublist (List.take_sublist _ _) hp
  · intro c
    apply filter_isortLe
    intro a b hpa hpb
    rw [decide_eq_true_eq] at hpa hpb
    show fle (get_unblended_cost b) (get_unblended_cost a) = true
    rw [hpa, hpb]
    exact fle_refl c

/-- C1 witness on the three-service scenario with `n = 2`. -/
theorem c1_rank_top_witness :
    (rankTop [ec2g, s3g, lamg] 2).length = min (Int.toNat 2) [ec2g, s3g, lamg].length
    ∧ (rankTop [ec2g, s3g, lamg] 2).Pairwise
        (fun a b => fle (get_unblended_cost b) (get_unblended_cost a) = true)
    ∧ ∀ c : F, (sortGroupsDesc [ec2g, s3g, lamg]).filter
          (fun g => decide (get_unblended_cost g = c))
        = [ec2g, s3g, lamg].filter (fun g => decide (get_unblended_cost g = c)) :=
  c1_rank_top [ec2g, s3g, lamg] 2 (by decide) (by decide) (by decide!)

/-! ### Helper lemmas: string folds -/

theorem sfoldl_shift : ∀ (l : List String) (a : String),
    l.foldl (fun r s => r ++ s) a = a ++ l.foldl (fun r s => r ++ s) "" := by
  intro l
  induction l with
  | nil => intro a; simp
  | cons s t ih =>
      intro a
      simp only [List.foldl_cons]
      rw [ih (a ++ s), ih ("" ++ s), String.empty_append, String.append_assoc]

theorem sjoin_cons (s : String) (t : List String) :
    String.join (s :: t) = s ++ String.join t := by
  show (s :: t).foldl (fun r u => r ++ u) "" = _
  simp only [List.foldl_cons, String.empty_append]
  exact sfoldl_shift t s

theorem foldl_lines (f : Group → Option String) :
    ∀ (l : List Group) (acc : String),
      l.foldl (fun a g => a ++ (f g).getD "") acc
        = acc ++ String.join (l.filterMap f) := by
  intro l
  induction l with
  | nil => intro acc; simp [String.join]
  | cons g t ih =>
      intro acc
      simp only [List.foldl_cons, List.filterMap_cons]
      cases hfg : f g with
      | none => simp [ih]
      | some s => rw [ih, sjoin_cons, Option.getD_some, String.append_assoc]

theorem padRight50_length (s : String) :
    (padRight50 s).length = max 50 s.length := by
  simp only [padRight50, String.length_append, String.length_mk,
    List.length_replicate]
  omega

/-- C7 counterexample: a 51-character label is NOT truncated to the
50-character column — the emitted line keeps all 51 characters, so the
column width is a minimum, not a fixed width. -/
theorem c7_counterexample :
    format_service_costs [longg] (F.num 150) 5
      = "```\n" ++ longLabel ++ ":  150円($1)\n\n```"
    ∧ longLabel.length = 51
    ∧ format_service_costs [longg] (F.num 150) 5
        ≠ "```\n" ++ (longLabel.take 50) ++ ":  150円($1)\n\n```" := by
  exact ⟨by decide!, by decide, by decide!⟩

/-- C7 amended: the ranking block is the backtick-fenced join, in rank
order, of one line per displayable entry among the first `display_count`;
in each line the label is left-aligned and right-padded with spaces to a
MINIMUM width of 50 characters (longer labels are not truncated), followed
by `":  "` and the dual-currency amount; entries whose keys or metrics are
missing yield no line (silently skipped). -/
theorem c7_amended (groups : List Group) (rate : F) (n : ℤ) :
    format_service_costs groups rate n
      = "```\n"
        ++ String.join ((groups.take (castUsize n)).filterMap (entry_line rate))
        ++ "\n```"
    ∧ (∀ g s, entry_line rate g = some s →
        ∃ key formatted,
          (g.keys.bind fun keys => keys.head?) = some key
          ∧ s = padRight50 key ++ ":  " ++ formatted ++ "\n"
          ∧ (padRight50 key).length = max 50 key.length)
    ∧ (∀ g : Group, g.keys = none → entry_line rate g = none)
    ∧ (∀ g : Group, g.metrics = none → entry_line rate g = none) := by
  refine ⟨?_, ?_, ?_, ?_⟩
  · show "```\n" ++ _ ++ "\n```" = _
    rw [foldl_lines (entry_line rate) _ "", String.empty_append]
  · intro g s h
    unfold entry_line at h
    rcases Option.bind_eq_some.mp h with ⟨key, hkey, h2⟩
    rcases Option.bind_eq_some.mp h2 with ⟨metric, hmetric, h3⟩
    rcases Option.map_eq_some'.mp h3 with ⟨formatted, hfmt, hs⟩
    exact ⟨key, formatted, hkey, hs.symm, padRight50_length key⟩
  · intro g h
    simp [entry_line, h]
  · intro g h
    simp [entry_line, h]

/-- C7 amended witness: the S3 fixture produces the fenced block with its
single line, and that line decomposes into padded label, separator and
amount. -/
theorem c7_amended_witness :
    format_service_costs [s3g] (F.num 150) 5
      = "```\n"
        ++ String.join (([s3g].take (castUsize 5)).filterMap (entry_line (F.num 150)))
        ++ "\n```"
    ∧ ∃ key formatted,
        (s3g.keys.bind fun keys => keys.head?) = some key
        ∧ padRight50 "S3" ++ ":  3825円($25.5)\n"
            = padRight50 key ++ ":  " ++ formatted ++ "\n"
        ∧ (padRight50 key).length = max 50 key.length :=
  ⟨(c7_amended [s3g] (F.num 150) 5).1,
    (c7_amended [s3g] (F.num 150) 5).2.1 s3g
      (padRight50 "S3" ++ ":  3825円($25.5)\n") (by decide!)⟩

/-! ### Helper lemmas: decimal rounding arithmetic -/

theorem roundBankers_intCast (k : ℤ) : roundBankers (k : ℚ) = k := by
  unfold roundBankers
  rw [Int.floor_intCast]
  norm_num

theorem from_f64_toRat (a : ℚ) (d : Dec)
    (h : Dec.from_f64 (F.num a) = some d) : Dec.toRat d = a := by
  simp only [Dec.from_f64] at h
  cases hfs : findScale a with
  | none => rw [hfs] at h; simp at h
  | some s =>
      rw [hfs] at h
      simp only [Option.bind] at h
      split at h
      · injection h with h2
        subst h2
        have hpred := List.find?_some hfs
        rw [decide_eq_true_eq] at hpred
        have hnum : ((a * (10 : ℚ) ^ s).num : ℚ) = a * 10 ^ s :=
          (Rat.den_eq_one_iff _).mp hpred
        unfold Dec.toRat
        rw [hnum, mul_div_assoc, div_self (pow_ne_zero _ (by norm_num)), mul_one]
      · exact absurd h (by simp)

theorem round_dp2_value (d : Dec) :
    Dec.toRat (Dec.round_dp2 d)
      = (roundBankers (Dec.toRat d * 100) : ℚ) / 100 := by
  have h10 : (10 : ℚ) ≠ 0 := by norm_num
  unfold Dec.round_dp2
  split
  · case isTrue hs =>
      have hk : Dec.toRat d * 100 = ((d.m * 10 ^ (2 - d.s) : ℤ) : ℚ) := by
        unfold Dec.toRat
        push_cast
        rw [div_mul_eq_mul_div, div_eq_iff (pow_ne_zero _ h10), mul_assoc,
          ← pow_add]
        have h2 : 2 - d.s + d.s = 2 := by omega
        rw [h2]
        norm_num
      rw [hk, roundBankers_intCast]
      unfold Dec.toRat
      push_cast
      rw [div_eq_div_iff (pow_ne_zero _ h10) (by norm_num : (100 : ℚ) ≠ 0),
        mul_assoc, ← pow_add]
      have h2 : 2 - d.s + d.s = 2 := by omega
      rw [h2]
      norm_num
  · case isFalse hs =>
      have hk : Dec.toRat d * 100 = (d.m : ℚ) / 10 ^ (d.s - 2) := by
        unfold Dec.toRat
        rw [div_mul_eq_mul_div,
          div_eq_div_iff (pow_ne_zero _ h10) (pow_ne_zero _ h10), mul_assoc]
        have h2 : (100 : ℚ) * 10 ^ (d.s - 2) = 10 ^ d.s := by
          rw [show (100 : ℚ) = 10 ^ 2 by norm_num, ← pow_add]
          congr 1
          omega
        rw [h2]
      rw [hk]
      unfold Dec.toRat
      norm_num

/-- C2: for finite representable amounts, `format_cost` is the JPY value
`round(a * r)` (half away from zero) rendered as a whole number, followed
by the USD value, whose numeric content is `a` rounded (banker's) to 2
decimal places. -/
theorem c2_format_cost (a r : ℚ) (d : Dec)
    (h : Dec.from_f64 (F.num a) = some d) :
    format_cost (F.num a) (F.num r)
      = toString (roundHalfAway (a * r)) ++ "円($"
        ++ Dec.render (Dec.round_dp2 d) ++ ")"
    ∧ Dec.toRat (Dec.round_dp2 d) = (roundBankers (a * 100) : ℚ) / 100 := by
  constructor
  · simp [format_cost, h, fmul, fround, displayF, Rat.den_intCast,
      Rat.num_intCast]
  · rw [← from_f64_toRat a d h]
    exact round_dp2_value d

/-- C2 witness at `a = 25.5`, `r = 150`. -/
theorem c2_format_cost_witness :
    format_cost (F.num (51 / 2)) (F.num 150)
      = toString (roundHalfAway ((51 / 2 : ℚ) * 150)) ++ "円($"
        ++ Dec.render (Dec.round_dp2 ⟨255, 1⟩) ++ ")"
    ∧ Dec.toRat (Dec.round_dp2 ⟨255, 1⟩)
        = (roundBankers ((51 / 2 : ℚ) * 100) : ℚ) / 100 :=
  c2_format_cost (51 / 2) 150 ⟨255, 1⟩ (by decide!)

end Billing
